import Mathlib

/-!
Verification of the Digital Safe web interface (src/sketch.js).

The sketch keeps two mutable globals, `lockState` (a string, initially
"LOCKED") and `entered` (the PIN buffer, initially ""), and updates them in
`handleLine`, which interprets one newline-delimited message from the device.
A serial read loop accumulates decoded text chunks in a buffer, splits off
everything before each newline, trims it and forwards non-empty lines to
`handleLine`.

JavaScript strings are modelled as `List Char`.  String relational operators
(`k >= "0"`, `k <= "9"`) are the JS abstract relational comparison on strings,
i.e. code-unit lexicographic order, modelled by `jsLt`.  `trim` and the ASCII
action of `toUpperCase` are modelled explicitly (the wire format of the device
is ASCII).  The mutation of the two globals is modelled by explicit state
passing over `AppState`.
-/

/-- Convenience conversion from a Lean string literal to the `List Char`
representation of JavaScript strings used throughout this development. -/
def str (s : String) : List Char := s.toList

/-- The two mutable globals of sketch.js: `lockState` (initially "LOCKED")
and `entered` (the digits entered so far, initially ""). -/
structure AppState where
  lockState : List Char
  entered : List Char
deriving DecidableEq, Repr

/-- Initial values of the globals: `lockState = "LOCKED"`, `entered = ""`. -/
def initialState : AppState := { lockState := str "LOCKED", entered := [] }

/-- Whitespace test of `String.prototype.trim`, restricted to the ASCII
whitespace characters (space, tab, line feed, carriage return, vertical tab,
form feed); the device protocol is ASCII. -/
def jsIsWhitespace (c : Char) : Bool :=
  c == ' ' || c == '\t' || c == '\n' || c == '\r' || c == '\x0b' || c == '\x0c'

/-- Model of `String.prototype.trim`: remove leading and trailing whitespace
characters. -/
def trim (l : List Char) : List Char :=
  ((l.dropWhile jsIsWhitespace).reverse.dropWhile jsIsWhitespace).reverse

/-- The JS abstract relational comparison `a < b` on strings: code-unit
lexicographic order (a proper prefix is smaller; otherwise the first differing
code unit decides).  `k >= "0"` is `jsLt k (str "0") = false` and
`k <= "9"` is `jsLt (str "9") k = false`. -/
def jsLt : List Char → List Char → Bool
  | [], [] => false
  | [], _ :: _ => true
  | _ :: _, [] => false
  | a :: as, b :: bs => if a < b then true else if b < a then false else jsLt as bs

/-- ASCII action of `String.prototype.toUpperCase` on a single character:
the twenty-six lowercase ASCII letters map to their uppercase forms, every
other character is unchanged (the device protocol is ASCII). -/
def jsToUpper (c : Char) : Char :=
  match c with
  | 'a' => 'A' | 'b' => 'B' | 'c' => 'C' | 'd' => 'D' | 'e' => 'E' | 'f' => 'F'
  | 'g' => 'G' | 'h' => 'H' | 'i' => 'I' | 'j' => 'J' | 'k' => 'K' | 'l' => 'L'
  | 'm' => 'M' | 'n' => 'N' | 'o' => 'O' | 'p' => 'P' | 'q' => 'Q' | 'r' => 'R'
  | 's' => 'S' | 't' => 'T' | 'u' => 'U' | 'v' => 'V' | 'w' => 'W' | 'x' => 'X'
  | 'y' => 'Y' | 'z' => 'Z'
  | c => c

/-- Model of `String.prototype.toUpperCase` (ASCII action): uppercase every
character. -/
def jsToUpperCase (l : List Char) : List Char := l.map jsToUpper

/-- Model of `handleLine` from sketch.js, with the two globals passed as
explicit state.  Faithful rendering of

    if (line.startsWith("KEY:")) {
      const k = line.slice(4).trim();
      if (k >= "0" && k <= "9" && entered.length < 4) entered += k;
      else if (k === "*" && entered.length) entered = entered.slice(0, -1);
    }
    else if (line.startsWith("STATE:")) {
      const s = line.slice(6).trim().toUpperCase();
      if (s === "UNLOCKED") { lockState = "UNLOCKED"; entered = ""; }
      else if (s === "WRONG") { lockState = "WRONG"; entered = ""; }
      else if (s === "IDLE") { lockState = "LOCKED"; }
    }

`slice(4)` / `slice(6)` are `List.drop`; `slice(0, -1)` on a non-empty string
drops the final character, i.e. `List.dropLast`; the truthiness test
`entered.length` is `entered.length ≠ 0`; the local constants `k` and `s` of
the source are inlined.  `k >= "0"` is `jsLt k (str "0") = false` and
`k <= "9"` is `jsLt (str "9") k = false` (JS abstract relational comparison on
strings). -/
def handleLine (line : List Char) (st : AppState) : AppState :=
  if (str "KEY:").isPrefixOf line then
    if jsLt (trim (line.drop 4)) (str "0") = false ∧
        jsLt (str "9") (trim (line.drop 4)) = false ∧ st.entered.length < 4 then
      { st with entered := st.entered ++ trim (line.drop 4) }
    else if trim (line.drop 4) = str "*" ∧ st.entered.length ≠ 0 then
      { st with entered := st.entered.dropLast }
    else st
  else if (str "STATE:").isPrefixOf line then
    if jsToUpperCase (trim (line.drop 6)) = str "UNLOCKED" then
      { lockState := str "UNLOCKED", entered := [] }
    else if jsToUpperCase (trim (line.drop 6)) = str "WRONG" then
      { lockState := str "WRONG", entered := [] }
    else if jsToUpperCase (trim (line.drop 6)) = str "IDLE" then
      { st with lockState := str "LOCKED" }
    else st
  else st

/-- Specification-side splitter: `splitNl s` is the pair of (the list of
segments of `s` that precede each newline character, in order) and (the
characters after the last newline, the whole of `s` when it has none). -/
def splitNl : List Char → List (List Char) × List Char
  | [] => ([], [])
  | c :: cs =>
    if c = '\n' then ([] :: (splitNl cs).1, (splitNl cs).2)
    else
      match (splitNl cs).1 with
      | [] => ([], c :: (splitNl cs).2)
      | l :: t => ((c :: l) :: t, (splitNl cs).2)

/-- Model of the inner `while` of the read loop in `connectSerial`:

    let nl;
    while ((nl = buf.indexOf("\n")) >= 0) {
      const line = buf.slice(0, nl).trim();
      buf = buf.slice(nl + 1);
      if (line) handleLine(line);
    }

returning the list of lines forwarded to `handleLine` (in order) together
with the final buffer.  `indexOf("\n") >= 0` is `'\n' ∈ buf`; the truthiness
test `if (line)` forwards only non-empty lines. -/
def readLinesLoop (buf : List Char) : List (List Char) × List Char :=
  if h : '\n' ∈ buf then
    let nl := buf.indexOf '\n'
    let line := trim (buf.take nl)
    let p := readLinesLoop (buf.drop (nl + 1))
    (if line = [] then p.1 else line :: p.1, p.2)
  else ([], buf)
termination_by buf.length
decreasing_by
  simp only [List.length_drop]
  have hpos : 0 < buf.length := List.length_pos.mpr (List.ne_nil_of_mem h)
  omega

/-- Model of the outer read loop of `connectSerial`: each element of
`chunks` is one decoded text chunk received from `reader.read()` (the stream
ends when the list does, matching `done`).  An empty chunk is skipped
(`if (!value) continue`); otherwise it is appended to the carried buffer and
the inner loop extracts the complete lines.  Returns all lines forwarded to
`handleLine`, in order, and the final buffer contents. -/
def readLoop : List (List Char) → List Char → List (List Char) × List Char
  | [], buf => ([], buf)
  | chunk :: rest, buf =>
    if chunk = [] then readLoop rest buf
    else
      let p := readLinesLoop (buf ++ chunk)
      let q := readLoop rest p.2
      (p.1 ++ q.1, q.2)


/-! ## Character-level helper lemmas -/

/-- Characters at or above the code unit of the digit zero are not JS
whitespace. -/
lemma jsIsWhitespace_eq_false_of_zero_le (c : Char) (h0 : '0' ≤ c) :
    jsIsWhitespace c = false := by
  simp only [jsIsWhitespace, Bool.or_eq_false_iff, beq_eq_false_iff_ne, ne_eq]
  refine ⟨⟨⟨⟨⟨?_, ?_⟩, ?_⟩, ?_⟩, ?_⟩, ?_⟩ <;> rintro rfl <;> revert h0 <;> decide

/-- Trimming a singleton digit string is the identity. -/
lemma trim_singleton_of_zero_le (c : Char) (h0 : '0' ≤ c) : trim [c] = [c] := by
  simp [trim, List.dropWhile, jsIsWhitespace_eq_false_of_zero_le c h0]

/-- A singleton string whose character is at least the digit zero is not below
the string "0" in JS string order. -/
lemma jsLt_singleton_str0 (d : Char) (h0 : '0' ≤ d) : jsLt [d] (str "0") = false := by
  show jsLt [d] ['0'] = false
  simp only [jsLt]
  rw [if_neg (not_lt.mpr h0), ite_self]

/-- The string "9" is not below a singleton string whose character is at most
the digit nine, in JS string order. -/
lemma jsLt_str9_singleton (d : Char) (h9 : d ≤ '9') : jsLt (str "9") [d] = false := by
  show jsLt ['9'] [d] = false
  simp only [jsLt]
  rw [if_neg (not_lt.mpr h9), ite_self]

/-- A line of the form "KEY:" followed by a single digit, interpreted with
fewer than four entered digits, appends that digit to the buffer and changes
nothing else. -/
lemma handleLine_key_digit_append (st : AppState) (d : Char)
    (h0 : '0' ≤ d) (h9 : d ≤ '9') (hlen : st.entered.length < 4) :
    handleLine (str "KEY:" ++ [d]) st = { st with entered := st.entered ++ [d] } := by
  have hpre : (str "KEY:").isPrefixOf (str "KEY:" ++ [d]) = true := rfl
  have hdrop : (str "KEY:" ++ [d]).drop 4 = [d] := rfl
  unfold handleLine
  rw [if_pos hpre, hdrop, trim_singleton_of_zero_le d h0,
    if_pos ⟨jsLt_singleton_str0 d h0, jsLt_str9_singleton d h9, hlen⟩]

/-! ## Claims about handleLine -/

/-- C2: for every line "KEY:" followed by a single decimal digit, when
Entered Digits has fewer than four characters, handleLine appends exactly that
digit: the length grows by one, the new last character is the digit, the
earlier characters are unchanged, and Lock State is unchanged. -/
theorem C2_key_digit_appends (st : AppState) (d : Char)
    (h0 : '0' ≤ d) (h9 : d ≤ '9') (hlen : st.entered.length < 4) :
    (handleLine (str "KEY:" ++ [d]) st).entered.length = st.entered.length + 1 ∧
    (handleLine (str "KEY:" ++ [d]) st).entered.getLast? = some d ∧
    (handleLine (str "KEY:" ++ [d]) st).entered.take st.entered.length = st.entered ∧
    (handleLine (str "KEY:" ++ [d]) st).lockState = st.lockState := by
  rw [handleLine_key_digit_append st d h0 h9 hlen]
  refine ⟨by simp, ?_, ?_, rfl⟩
  · exact List.getLast?_concat _
  · exact List.take_left _ _

/-- C2 witness: the hypotheses and the conclusion hold concretely for the
digit 5 entered into the initial (empty) buffer. -/
theorem C2_key_digit_appends_witness :
    (('0' ≤ '5') ∧ ('5' ≤ '9') ∧ initialState.entered.length < 4) ∧
    ((handleLine (str "KEY:" ++ ['5']) initialState).entered.length =
        initialState.entered.length + 1 ∧
      (handleLine (str "KEY:" ++ ['5']) initialState).entered.getLast? = some '5' ∧
      (handleLine (str "KEY:" ++ ['5']) initialState).entered.take
          initialState.entered.length = initialState.entered ∧
      (handleLine (str "KEY:" ++ ['5']) initialState).lockState =
        initialState.lockState) :=
  ⟨⟨by decide, by decide, by decide⟩,
    C2_key_digit_appends initialState '5' (by decide) (by decide) (by decide)⟩

/-- C3: a single-digit KEY line received with a full (length four) buffer
changes nothing, and the scenario KEY:1, KEY:2, KEY:3, KEY:4, KEY:5 from the
initial state yields Entered Digits "1234" (the fifth digit is dropped). -/
theorem C3_key_digit_full_buffer :
    (∀ (st : AppState) (d : Char), '0' ≤ d → d ≤ '9' → st.entered.length = 4 →
        handleLine (str "KEY:" ++ [d]) st = st) ∧
    (handleLine (str "KEY:5") (handleLine (str "KEY:4") (handleLine (str "KEY:3")
        (handleLine (str "KEY:2") (handleLine (str "KEY:1")
          initialState))))).entered = str "1234" := by
  constructor
  · intro st d h0 h9 hlen
    have hpre : (str "KEY:").isPrefixOf (str "KEY:" ++ [d]) = true := rfl
    have hdrop : (str "KEY:" ++ [d]).drop 4 = [d] := rfl
    unfold handleLine
    rw [if_pos hpre, hdrop, trim_singleton_of_zero_le d h0]
    rw [if_neg (by rintro ⟨-, -, hlt⟩; omega)]
    rw [if_neg ?_]
    rintro ⟨hk, -⟩
    have hd : d = '*' := by
      have := congrArg (fun l => l.headI) hk
      simpa using this
    subst hd
    exact absurd h0 (by decide)
  · decide

/-- C3 witness: the hypotheses and the conclusion of the universally
quantified part hold concretely for the digit 7 and a full buffer "1234". -/
theorem C3_key_digit_full_buffer_witness :
    (('0' ≤ '7') ∧ ('7' ≤ '9') ∧
      (AppState.mk (str "LOCKED") (str "1234")).entered.length = 4) ∧
    handleLine (str "KEY:" ++ ['7']) (AppState.mk (str "LOCKED") (str "1234")) =
      AppState.mk (str "LOCKED") (str "1234") :=
  ⟨⟨by decide, by decide, by decide⟩,
    C3_key_digit_full_buffer.1 (AppState.mk (str "LOCKED") (str "1234")) '7'
      (by decide) (by decide) (by decide)⟩

/-- C4: the line "KEY:*" always removes the last character of Entered Digits
(a no-op on the empty buffer, since dropLast of the empty list is itself) and
leaves Lock State unchanged; and the scenario KEY:7, KEY:*, KEY:* from the
initial state yields an empty Entered Digits. -/
theorem C4_key_star_deletes :
    (∀ st : AppState,
        handleLine (str "KEY:*") st = { st with entered := st.entered.dropLast }) ∧
    (handleLine (str "KEY:*") (handleLine (str "KEY:*")
        (handleLine (str "KEY:7") initialState))).entered = [] := by
  constructor
  · intro st
    obtain ⟨ls, e⟩ := st
    cases e <;> rfl
  · decide

/-- C5: the lines "STATE:UNLOCKED" and "STATE:WRONG" always set Lock State to
UNLOCKED respectively WRONG and clear Entered Digits, regardless of the prior
state. -/
theorem C5_state_unlocked_wrong (st : AppState) :
    handleLine (str "STATE:UNLOCKED") st = AppState.mk (str "UNLOCKED") [] ∧
    handleLine (str "STATE:WRONG") st = AppState.mk (str "WRONG") [] :=
  ⟨rfl, rfl⟩

/-- C6: the line "STATE:IDLE" always sets Lock State to LOCKED and leaves
Entered Digits exactly as it was. -/
theorem C6_state_idle_frame (st : AppState) :
    handleLine (str "STATE:IDLE") st = { st with lockState := str "LOCKED" } :=
  rfl

/-- C1 counterexample: the buffer "123" is reachable from the initial state by
three handleLine steps and has length three, yet interpreting the line
"KEY:12" — whose payload passes the code's lexicographic string range test
"0" <= "12" <= "9" — appends both characters and yields a buffer of length
five, so handleLine does not preserve the invariant that the length of
Entered Digits never exceeds four. -/
theorem C1_counterexample :
    (handleLine (str "KEY:3") (handleLine (str "KEY:2")
        (handleLine (str "KEY:1") initialState))).entered = str "123" ∧
    ¬ (handleLine (str "KEY:12") (handleLine (str "KEY:3") (handleLine (str "KEY:2")
        (handleLine (str "KEY:1") initialState)))).entered.length ≤ 4 := by
  decide

/-- C1 amended: handleLine preserves the invariant that Entered Digits has at
most four characters, provided that any "KEY:"-prefixed line carries a trimmed
payload of at most one character (as every wire-format message KEY:<c> does);
multi-character payloads inside the lexicographic range "0".."9" can grow the
buffer beyond four. -/
theorem C1_amended_invariant (st : AppState) (line : List Char)
    (h1 : st.entered.length ≤ 4)
    (h2 : (str "KEY:").isPrefixOf line = true → (trim (line.drop 4)).length ≤ 1) :
    (handleLine line st).entered.length ≤ 4 := by
  unfold handleLine
  split
  · rename_i hK
    have hp := h2 hK
    split
    · rename_i hc
      obtain ⟨-, -, hlt⟩ := hc
      show (st.entered ++ trim (line.drop 4)).length ≤ 4
      rw [List.length_append]
      omega
    · split
      · show st.entered.dropLast.length ≤ 4
        rw [List.length_dropLast]
        omega
      · exact h1
  · split
    · split
      · show ([] : List Char).length ≤ 4
        simp
      · split
        · show ([] : List Char).length ≤ 4
          simp
        · split
          · exact h1
          · exact h1
    · exact h1

/-- C1 witness: the hypotheses and the conclusion of the amended invariant
hold concretely for the line "KEY:5" interpreted in the initial state. -/
theorem C1_amended_invariant_witness :
    (initialState.entered.length ≤ 4 ∧
      ((str "KEY:").isPrefixOf (str "KEY:5") = true →
        (trim ((str "KEY:5").drop 4)).length ≤ 1)) ∧
    (handleLine (str "KEY:5") initialState).entered.length ≤ 4 :=
  ⟨⟨by decide, by decide⟩,
    C1_amended_invariant initialState (str "KEY:5") (by decide) (by decide)⟩

/-- C7 counterexample: the payload of the line "KEY:12" is neither a single
decimal digit (it is none of the ten singleton digit strings) nor the delete
symbol "*", so by the claim handleLine should ignore it; but the code's digit
test is a lexicographic string comparison, "12" falls between "0" and "9", and
the state changes (both characters are appended). -/
theorem C7_counterexample :
    (trim ((str "KEY:12").drop 4) ∉ [str "0", str "1", str "2", str "3", str "4",
        str "5", str "6", str "7", str "8", str "9"] ∧
      trim ((str "KEY:12").drop 4) ≠ str "*") ∧
    ¬ handleLine (str "KEY:12") initialState = initialState := by
  decide

/-- C7 amended: handleLine leaves the state unchanged on every line matching
neither prefix; on every "KEY:"-prefixed line whose trimmed payload is not "*"
and falls lexicographically below "0" or above "9" in JS string order (rather
than: is not a single decimal digit); and on every "STATE:"-prefixed line
whose trimmed, uppercased payload is none of UNLOCKED, WRONG, IDLE. -/
theorem C7_amended_ignored_lines (st : AppState) (line : List Char)
    (h : ((str "KEY:").isPrefixOf line = false ∧
          (str "STATE:").isPrefixOf line = false) ∨
        ((str "KEY:").isPrefixOf line = true ∧
          (jsLt (trim (line.drop 4)) (str "0") = true ∨
            jsLt (str "9") (trim (line.drop 4)) = true) ∧
          trim (line.drop 4) ≠ str "*") ∨
        ((str "STATE:").isPrefixOf line = true ∧
          jsToUpperCase (trim (line.drop 6)) ∉
            [str "UNLOCKED", str "WRONG", str "IDLE"])) :
    handleLine line st = st := by
  unfold handleLine
  rcases h with ⟨hk, hs⟩ | ⟨hk, hrange, hstar⟩ | ⟨hs, hu⟩
  · rw [if_neg (by simp [hk]), if_neg (by simp [hs])]
  · rw [if_pos hk]
    rw [if_neg ?_, if_neg ?_]
    · rintro ⟨hk1, -⟩
      exact hstar hk1
    · rintro ⟨hc0, hc9, -⟩
      rcases hrange with hr | hr
      · rw [hr] at hc0
        cases hc0
      · rw [hr] at hc9
        cases hc9
  · simp only [List.mem_cons, List.mem_singleton, not_or] at hu
    obtain ⟨hu1, hu2, hu3, -⟩ := hu
    have hknot : (str "KEY:").isPrefixOf line = false := by
      rcases List.isPrefixOf_iff_prefix.mp hs with ⟨rest, rfl⟩
      rfl
    rw [if_neg (by simp [hknot]), if_pos hs, if_neg hu1, if_neg hu2, if_neg hu3]

/-- C7 witness: the hypotheses and the conclusion hold concretely for the
line "HELLO", which matches neither prefix, interpreted in the initial
state. -/
theorem C7_amended_ignored_lines_witness :
    ((str "KEY:").isPrefixOf (str "HELLO") = false ∧
      (str "STATE:").isPrefixOf (str "HELLO") = false) ∧
    handleLine (str "HELLO") initialState = initialState :=
  ⟨⟨by decide, by decide⟩,
    C7_amended_ignored_lines initialState (str "HELLO")
      (Or.inl ⟨by decide, by decide⟩)⟩

/-- Uppercasing a character does not change whether it is JS whitespace. -/
lemma jsIsWhitespace_jsToUpper (c : Char) :
    jsIsWhitespace (jsToUpper c) = jsIsWhitespace c := by
  unfold jsToUpper
  split <;> rfl

/-- dropWhile of the whitespace predicate is the identity on a list with no
whitespace characters. -/
lemma dropWhile_ws_eq_self (l : List Char) (h : ∀ c ∈ l, jsIsWhitespace c = false) :
    l.dropWhile jsIsWhitespace = l := by
  cases l with
  | nil => rfl
  | cons a t => simp [List.dropWhile_cons, h a (List.mem_cons_self a t)]

/-- Trimming is the identity on a string with no whitespace characters. -/
lemma trim_eq_self (l : List Char) (h : ∀ c ∈ l, jsIsWhitespace c = false) :
    trim l = l := by
  unfold trim
  rw [dropWhile_ws_eq_self l h,
    dropWhile_ws_eq_self l.reverse (by simpa using h), List.reverse_reverse]

/-- A string whose uppercased form contains no whitespace contains no
whitespace itself. -/
lemma ws_false_of_upper_mem (p target : List Char) (hp : jsToUpperCase p = target)
    (htar : ∀ u ∈ target, jsIsWhitespace u = false) :
    ∀ c ∈ p, jsIsWhitespace c = false := by
  intro c hc
  rw [← jsIsWhitespace_jsToUpper c]
  exact htar _ (hp ▸ List.mem_map_of_mem jsToUpper hc)

/-- Evaluation of handleLine on a "STATE:" line whose payload contains no
whitespace: the branch taken depends only on the uppercased payload. -/
lemma handleLine_state_payload (st : AppState) (p : List Char)
    (hws : ∀ c ∈ p, jsIsWhitespace c = false) :
    handleLine (str "STATE:" ++ p) st =
      if jsToUpperCase p = str "UNLOCKED" then AppState.mk (str "UNLOCKED") []
      else if jsToUpperCase p = str "WRONG" then AppState.mk (str "WRONG") []
      else if jsToUpperCase p = str "IDLE" then { st with lockState := str "LOCKED" }
      else st := by
  unfold handleLine
  rw [if_neg (by simp [show (str "KEY:").isPrefixOf (str "STATE:" ++ p) = false
      from rfl]),
    if_pos (show (str "STATE:").isPrefixOf (str "STATE:" ++ p) = true by
      cases p <;> rfl),
    show (str "STATE:" ++ p).drop 6 = p from rfl, trim_eq_self p hws]

/-- C8: STATE payload matching is case-insensitive.  Every payload whose
uppercased form is UNLOCKED (that is, every casing of UNLOCKED) has exactly
the same effect as the uppercase spelling, and likewise for WRONG and IDLE;
in particular "STATE:wrong" yields Lock State WRONG. -/
theorem C8_state_case_insensitive :
    (∀ (st : AppState) (p : List Char), jsToUpperCase p = str "UNLOCKED" →
        handleLine (str "STATE:" ++ p) st = handleLine (str "STATE:UNLOCKED") st) ∧
    (∀ (st : AppState) (p : List Char), jsToUpperCase p = str "WRONG" →
        handleLine (str "STATE:" ++ p) st = handleLine (str "STATE:WRONG") st) ∧
    (∀ (st : AppState) (p : List Char), jsToUpperCase p = str "IDLE" →
        handleLine (str "STATE:" ++ p) st = handleLine (str "STATE:IDLE") st) ∧
    (∀ st : AppState, (handleLine (str "STATE:wrong") st).lockState = str "WRONG") := by
  refine ⟨?_, ?_, ?_, fun st => rfl⟩
  · intro st p hp
    rw [handleLine_state_payload st p (ws_false_of_upper_mem p _ hp (by decide)), hp]
    rw [if_pos rfl]
    rfl
  · intro st p hp
    rw [handleLine_state_payload st p (ws_false_of_upper_mem p _ hp (by decide)), hp]
    rw [if_neg (by decide), if_pos rfl]
    rfl
  · intro st p hp
    rw [handleLine_state_payload st p (ws_false_of_upper_mem p _ hp (by decide)), hp]
    rw [if_neg (by decide), if_neg (by decide), if_pos rfl]
    rfl

/-- C8 witness: the hypothesis and the conclusion hold concretely for the
mixed-case payload "uNlOcKeD" in the initial state. -/
theorem C8_state_case_insensitive_witness :
    jsToUpperCase (str "uNlOcKeD") = str "UNLOCKED" ∧
    handleLine (str "STATE:" ++ str "uNlOcKeD") initialState =
      handleLine (str "STATE:UNLOCKED") initialState :=
  ⟨by decide,
    C8_state_case_insensitive.1 initialState (str "uNlOcKeD") (by decide)⟩

/-- C10: implicit frame property.  A "KEY:"-prefixed line never changes Lock
State, and a "STATE:"-prefixed line never grows Entered Digits: it either
clears the buffer or leaves it exactly as it was. -/
theorem C10_frame_key_state (st : AppState) (line : List Char) :
    ((str "KEY:").isPrefixOf line = true →
      (handleLine line st).lockState = st.lockState) ∧
    ((str "STATE:").isPrefixOf line = true →
      (handleLine line st).entered = [] ∨ (handleLine line st).entered = st.entered) := by
  constructor
  · intro hK
    unfold handleLine
    rw [if_pos hK]
    split
    · rfl
    · split
      · rfl
      · rfl
  · intro hS
    have hknot : (str "KEY:").isPrefixOf line = false := by
      rcases List.isPrefixOf_iff_prefix.mp hS with ⟨rest, rfl⟩
      rfl
    unfold handleLine
    rw [if_neg (by simp [hknot]), if_pos hS]
    split
    · exact Or.inl rfl
    · split
      · exact Or.inl rfl
      · split
        · exact Or.inr rfl
        · exact Or.inr rfl

/-- C10 witness: both implications hold with their hypotheses discharged at
the concrete lines "KEY:5" and "STATE:UNLOCKED" in the initial state. -/
theorem C10_frame_key_state_witness :
    ((str "KEY:").isPrefixOf (str "KEY:5") = true ∧
      (handleLine (str "KEY:5") initialState).lockState = initialState.lockState) ∧
    ((str "STATE:").isPrefixOf (str "STATE:UNLOCKED") = true ∧
      ((handleLine (str "STATE:UNLOCKED") initialState).entered = [] ∨
        (handleLine (str "STATE:UNLOCKED") initialState).entered =
          initialState.entered)) :=
  ⟨⟨by decide, (C10_frame_key_state initialState (str "KEY:5")).1 (by decide)⟩,
    ⟨by decide,
      (C10_frame_key_state initialState (str "STATE:UNLOCKED")).2 (by decide)⟩⟩

/-! ## The read loop forwards exactly the trimmed non-empty newline-delimited
segments -/

/-- A buffer without a newline splits into no segments and itself. -/
lemma splitNl_not_mem (buf : List Char) (h : '\n' ∉ buf) : splitNl buf = ([], buf) := by
  induction buf with
  | nil => rfl
  | cons c cs ih =>
    have hc : ¬ c = '\n' := fun e => h (e ▸ List.mem_cons_self c cs)
    have hcs : '\n' ∉ cs := fun m => h (List.mem_cons_of_mem c m)
    simp only [splitNl, if_neg hc, ih hcs]

/-- A buffer containing a newline splits into the segment before the first
newline followed by the splitting of what comes after it. -/
lemma splitNl_mem (buf : List Char) (h : '\n' ∈ buf) :
    splitNl buf =
      (buf.take (buf.indexOf '\n') ::
          (splitNl (buf.drop (buf.indexOf '\n' + 1))).1,
        (splitNl (buf.drop (buf.indexOf '\n' + 1))).2) := by
  induction buf with
  | nil => cases h
  | cons c cs ih =>
    by_cases hc : c = '\n'
    · subst hc
      simp [splitNl, List.indexOf_cons_self]
    · have hcs : '\n' ∈ cs := by
        rcases List.mem_cons.mp h with h1 | h1
        · exact absurd h1.symm hc
        · exact h1
      have hne : c ≠ '\n' := hc
      rw [List.indexOf_cons_ne cs hne]
      simp only [splitNl, if_neg hc]
      rw [ih hcs]
      simp [List.take_succ_cons, List.drop_succ_cons, Nat.succ_eq_add_one]

/-- The remainder of the splitting never contains a newline. -/
lemma splitNl_snd_not_mem (buf : List Char) : '\n' ∉ (splitNl buf).2 := by
  induction buf with
  | nil => simp [splitNl]
  | cons c cs ih =>
    by_cases hc : c = '\n'
    · subst hc
      simpa [splitNl] using ih
    · simp only [splitNl, if_neg hc]
      rcases h1 : (splitNl cs).1 with - | ⟨l, t⟩
      · dsimp only
        intro hmem
        rcases List.mem_cons.mp hmem with e | m
        · exact hc e.symm
        · exact ih m
      · dsimp only
        exact ih

/-- Equation for the splitter at a newline head. -/
lemma splitNl_cons_nl (cs : List Char) :
    splitNl ('\n' :: cs) = ([] :: (splitNl cs).1, (splitNl cs).2) := rfl

/-- Equation for the splitter at a non-newline head when the tail has no
segment yet. -/
lemma splitNl_cons_of_ne_nil (c : Char) (cs : List Char) (hc : ¬ c = '\n')
    (h1 : (splitNl cs).1 = []) :
    splitNl (c :: cs) = ([], c :: (splitNl cs).2) := by
  simp only [splitNl, if_neg hc, h1]

/-- Equation for the splitter at a non-newline head when the tail already has
a first segment: the head character is prepended to it. -/
lemma splitNl_cons_of_ne_cons (c : Char) (cs : List Char) (l : List Char)
    (t : List (List Char)) (hc : ¬ c = '\n') (h1 : (splitNl cs).1 = l :: t) :
    splitNl (c :: cs) = ((c :: l) :: t, (splitNl cs).2) := by
  simp only [splitNl, if_neg hc, h1]

/-- Splitting a concatenation: the segments of `a ++ b` are the segments of
`a` followed by the segments of the remainder of `a` prepended to `b`, and the
remainder is that of the remainder of `a` prepended to `b`. -/
lemma splitNl_append (a b : List Char) :
    splitNl (a ++ b) =
      ((splitNl a).1 ++ (splitNl ((splitNl a).2 ++ b)).1,
        (splitNl ((splitNl a).2 ++ b)).2) := by
  induction a with
  | nil => simp [splitNl]
  | cons x a ih =>
    have hfst : (splitNl (a ++ b)).1 =
        (splitNl a).1 ++ (splitNl ((splitNl a).2 ++ b)).1 := by rw [ih]
    have hsnd : (splitNl (a ++ b)).2 = (splitNl ((splitNl a).2 ++ b)).2 := by
      rw [ih]
    by_cases hx : x = '\n'
    · subst hx
      rw [List.cons_append, splitNl_cons_nl, splitNl_cons_nl, hfst, hsnd]
      simp
    · rcases h1 : (splitNl a).1 with - | ⟨l, t⟩
      · have hxa : splitNl (x :: a) = ([], x :: (splitNl a).2) :=
          splitNl_cons_of_ne_nil x a hx h1
        rcases h2 : (splitNl ((splitNl a).2 ++ b)).1 with - | ⟨l2, t2⟩
        · have hab : (splitNl (a ++ b)).1 = [] := by rw [hfst, h1, h2]; rfl
          rw [List.cons_append, splitNl_cons_of_ne_nil x (a ++ b) hx hab, hxa,
            hsnd]
          dsimp only
          rw [List.cons_append, splitNl_cons_of_ne_nil x ((splitNl a).2 ++ b)
            hx h2]
          simp
        · have hab : (splitNl (a ++ b)).1 = l2 :: t2 := by
            rw [hfst, h1, h2]; rfl
          rw [List.cons_append, splitNl_cons_of_ne_cons x (a ++ b) l2 t2 hx hab,
            hxa, hsnd]
          dsimp only
          rw [List.cons_append, splitNl_cons_of_ne_cons x ((splitNl a).2 ++ b)
            l2 t2 hx h2]
          simp
      · have hxa : splitNl (x :: a) = ((x :: l) :: t, (splitNl a).2) :=
          splitNl_cons_of_ne_cons x a l t hx h1
        have hab : (splitNl (a ++ b)).1 =
            l :: (t ++ (splitNl ((splitNl a).2 ++ b)).1) := by
          rw [hfst, h1]; rfl
        rw [List.cons_append, splitNl_cons_of_ne_cons x (a ++ b) l
          (t ++ (splitNl ((splitNl a).2 ++ b)).1) hx hab, hxa, hsnd]
        simp

/-- Characterization of the inner read loop, by induction on a length bound:
it forwards exactly the trimmed, non-empty segments preceding each newline of
the buffer, and keeps the characters after the last newline. -/
lemma readLinesLoop_spec_aux :
    ∀ (n : Nat) (buf : List Char), buf.length ≤ n →
      readLinesLoop buf =
        (((splitNl buf).1.map trim).filter (fun l => !l.isEmpty),
          (splitNl buf).2) := by
  intro n
  induction n with
  | zero =>
    intro buf hb
    have hnil : buf = [] := List.eq_nil_of_length_eq_zero (Nat.le_zero.mp hb)
    subst hnil
    rw [readLinesLoop, dif_neg (List.not_mem_nil '\n')]
    rfl
  | succ n ihn =>
    intro buf hb
    by_cases h : '\n' ∈ buf
    · rw [readLinesLoop, dif_pos h]
      dsimp only
      have hlt : (buf.drop (buf.indexOf '\n' + 1)).length ≤ n := by
        rw [List.length_drop]
        have hpos : 0 < buf.length := List.length_pos.mpr (List.ne_nil_of_mem h)
        omega
      rw [ihn _ hlt, splitNl_mem buf h]
      dsimp only [List.map_cons]
      rw [List.filter_cons]
      by_cases htl : trim (buf.take (buf.indexOf '\n')) = []
      · simp [htl]
      · simp [htl, List.isEmpty_iff]
    · rw [readLinesLoop, dif_neg h, splitNl_not_mem buf h]
      rfl

/-- Characterization of the inner read loop. -/
lemma readLinesLoop_spec (buf : List Char) :
    readLinesLoop buf =
      (((splitNl buf).1.map trim).filter (fun l => !l.isEmpty),
        (splitNl buf).2) :=
  readLinesLoop_spec_aux buf.length buf le_rfl

/-- Characterization of the outer read loop, carrying a newline-free buffer:
it forwards exactly the trimmed non-empty segments preceding each newline of
the carried buffer followed by the concatenated chunks, and ends holding the
characters after the last newline. -/
lemma readLoop_spec_aux :
    ∀ (chunks : List (List Char)) (buf : List Char), '\n' ∉ buf →
      readLoop chunks buf =
        (((splitNl (buf ++ chunks.flatten)).1.map trim).filter (fun l => !l.isEmpty),
          (splitNl (buf ++ chunks.flatten)).2) := by
  intro chunks
  induction chunks with
  | nil =>
    intro buf hb
    rw [readLoop]
    simp [splitNl_not_mem buf hb]
  | cons c cs ih =>
    intro buf hb
    by_cases hc : c = []
    · subst hc
      rw [readLoop, if_pos rfl, ih buf hb]
      simp
    · rw [readLoop, if_neg hc]
      dsimp only
      rw [readLinesLoop_spec (buf ++ c)]
      dsimp only
      rw [ih _ (splitNl_snd_not_mem (buf ++ c)), List.flatten_cons,
        ← List.append_assoc, splitNl_append (buf ++ c) cs.flatten]
      simp [List.filter_append]

/-- C9: for every finite sequence of decoded text chunks, the read loop
(started with an empty buffer) forwards to the line interpreter exactly the
whitespace-trimmed, non-empty segments preceding each newline character of
the concatenation of the chunks, in order, and afterwards holds exactly the
characters after the last newline in its buffer (so they are never
forwarded). -/
theorem C9_read_loop_splitting (chunks : List (List Char)) :
    readLoop chunks [] =
      (((splitNl chunks.flatten).1.map trim).filter (fun l => !l.isEmpty),
        (splitNl chunks.flatten).2) := by
  have h := readLoop_spec_aux chunks [] (List.not_mem_nil '\n')
  simpa using h
